import Mathlib

/-!
Verification of the Hansard monitor pipeline (download_transcript.py,
scan_new_transcripts.py, send_email.py) via a shallow embedding.

Strings are modelled as `List Char`.  Python `str.lower()` is modelled by
`Char.toLower` (ASCII case folding; every character relevant to the
classifier literals and keyword examples is ASCII, and the em-dash is left
unchanged by both).
-/

set_option maxRecDepth 20000

namespace HansMon

/-- Python whitespace class `\s` (ASCII part), also used by `str.strip()`. -/
def isPySpace (c : Char) : Bool :=
  c == ' ' || c == '\t' || c == '\n' || c == '\r' || c == Char.ofNat 12 || c == Char.ofNat 11

/-- Python `str.strip()`: drop whitespace from both ends. -/
def pstrip (l : List Char) : List Char :=
  ((l.dropWhile isPySpace).reverse.dropWhile isPySpace).reverse

/-- Python substring containment `sub in s`. -/
def containsSub (s sub : List Char) : Bool :=
  (List.range (s.length + 1)).any fun i => sub.isPrefixOf (List.drop i s)

/-- Lowercasing of a whole string, modelling `str.lower()` (ASCII). -/
def lowerL (t : List Char) : List Char :=
  t.map Char.toLower

-- ---------------------------------------------------------------------------
-- download_transcript.py: detect_chamber (lines 89-95)
-- ---------------------------------------------------------------------------

def litHoASpace : List Char := "house of assembly".toList

def litHoAUnder : List Char := "house_of_assembly".toList

def litHoADash : List Char := "house—of—assembly".toList

def litLCSpace : List Char := "legislative council".toList

def litLCUnder : List Char := "legislative_council".toList

def chHouse : List Char := "House of Assembly".toList

def chCouncil : List Char := "Legislative Council".toList

def chOther : List Char := "Other Hansard".toList

/-- Embedding of `detect_chamber` (download_transcript.py lines 89-95):
lowercase the text, test the three House-of-Assembly variants (space,
underscore, em-dash), then the two Legislative-Council variants (space,
underscore), otherwise return the Other-Hansard category. -/
def detect_chamber (text : List Char) : List Char :=
  let t := lowerL text
  if containsSub t litHoASpace || containsSub t litHoAUnder || containsSub t litHoADash then
    chHouse
  else if containsSub t litLCSpace || containsSub t litLCUnder then
    chCouncil
  else
    chOther

-- ---------------------------------------------------------------------------
-- download_transcript.py: slugify (lines 67-70) and file naming (210-215)
-- ---------------------------------------------------------------------------

/-- The `re.sub(r"\s+", "_", ...)` step of `slugify`: every maximal run of
whitespace becomes a single underscore.  The Bool argument records whether the
previous character was part of a whitespace run. -/
def collapseWS : List Char → Bool → List Char
  | [], _ => []
  | c :: rest, prev =>
    if isPySpace c then
      if prev then collapseWS rest true else '_' :: collapseWS rest true
    else
      c :: collapseWS rest false

/-- Character class kept by `re.sub(r"[^A-Za-z0-9._-]+", "", ...)`. -/
def allowedSlugChar (c : Char) : Bool :=
  c.isAlpha || c.isDigit || c == '.' || c == '_' || c == '-'

/-- Embedding of `slugify(text, maxlen)` (download_transcript.py lines 67-70):
strip, collapse whitespace runs to `_`, delete disallowed characters, truncate
to `maxlen` (Python truthiness: `maxlen = 0` means no truncation). -/
def slugify (text : List Char) (maxlen : Nat) : List Char :=
  let t1 := collapseWS (pstrip text) false
  let t2 := t1.filter allowedSlugChar
  if maxlen ≠ 0 then t2.take maxlen else t2

def dirHouse : List Char := "transcripts/House_of_Assembly".toList

def dirCouncil : List Char := "transcripts/Legislative_Council".toList

def dirOther : List Char := "transcripts/Other_Hansard".toList

/-- Embedding of the `CHAMBER_DIRS` mapping (download_transcript.py 53-57)
with the default `TRANSCRIPTS_DIR`. -/
def chamberDir (chamber : List Char) : List Char :=
  if chamber = chHouse then dirHouse
  else if chamber = chCouncil then dirCouncil
  else dirOther

def litUnderUnder : List Char := "__".toList

def litDotTxt : List Char := ".txt".toList

def litSlash : List Char := "/".toList

/-- Embedding of the final filename construction (download_transcript.py line
213): `f"{slugify(chamber)}__{slugify(title_text)}__{slugify(docid)}.txt"`,
each slug with the default `maxlen = 120`. -/
def final_name (chamber title docid : List Char) : List Char :=
  slugify chamber 120 ++ litUnderUnder ++ slugify title 120 ++ litUnderUnder ++
    slugify docid 120 ++ litDotTxt

/-- Destination path `dest_dir / final_name` (download_transcript.py 211-214). -/
def final_path (chamber title docid : List Char) : List Char :=
  chamberDir chamber ++ litSlash ++ final_name chamber title docid

end HansMon

namespace HansMon

-- ---------------------------------------------------------------------------
-- send_email.py: word-boundary keyword matching (lines 96-133)
-- ---------------------------------------------------------------------------

/-- Python regex word character `\w` (ASCII part): letters, digits, underscore. -/
def isWordChar (c : Char) : Bool :=
  c.isAlpha || c.isDigit || c == '_'

/-- Word-characterness of position `i` of `t`; out of range counts as non-word. -/
def isWordAt (t : List Char) (i : Nat) : Bool :=
  match t.drop i with
  | c :: _ => isWordChar c
  | [] => false

/-- Python regex `\b` at position `j` of `t`: the word-characterness changes
between positions `j - 1` and `j` (out-of-range positions are non-word). -/
def wordB (t : List Char) : Nat → Bool
  | 0 => isWordAt t 0
  | j + 1 => isWordAt t j != isWordAt t (j + 1)

/-- Case-insensitive literal match of `kw` against the front of `s`
(`re.IGNORECASE` on an escaped literal, ASCII folding). -/
def lowerEqPrefix : List Char → List Char → Bool
  | [], _ => true
  | _ :: _, [] => false
  | k :: kt, c :: ct => (Char.toLower c == Char.toLower k) && lowerEqPrefix kt ct

/-- One match of the regex `\b(kw)\b` with `re.IGNORECASE` at position `i`. -/
def matchWBAt (t kw : List Char) (i : Nat) : Bool :=
  decide (i + kw.length ≤ t.length) && lowerEqPrefix kw (t.drop i) &&
    wordB t i && wordB t (i + kw.length)

/-- Truthiness of `re.search` for the combined digest pattern
`\b(kw1|kw2|...)\b` with `re.IGNORECASE` (send_email.py lines 132-137):
some keyword matches at some position with word boundaries on both sides. -/
def patternSearch (t : List Char) (kws : List (List Char)) : Bool :=
  (List.range (t.length + 1)).any fun i => kws.any fun kw => matchWBAt t kw i

-- ---------------------------------------------------------------------------
-- send_email.py: html.escape and highlight_keywords (lines 96-119)
-- ---------------------------------------------------------------------------

def entAmp : List Char := "&amp;".toList

def entLt : List Char := "&lt;".toList

def entGt : List Char := "&gt;".toList

def entQuot : List Char := "&quot;".toList

def entApos : List Char := "&#x27;".toList

/-- Per-character expansion of Python `html.escape(s)` (quote=True): the five
sequential `str.replace` calls amount to this character map. -/
def escapeChar (c : Char) : List Char :=
  if c == '&' then entAmp
  else if c == '<' then entLt
  else if c == '>' then entGt
  else if c == Char.ofNat 34 then entQuot
  else if c == Char.ofNat 39 then entApos
  else [c]

/-- Python `html.escape` over a whole string. -/
def escapeHtml (t : List Char) : List Char :=
  (t.map escapeChar).flatten

/-- The literal `<mark ...>` opening tag inserted by `highlight_keywords`
(send_email.py line 115), with the brand constants substituted. -/
def markOpen : List Char :=
  "<mark style=\"background-color: #FFF3CD; color: #2C3E50; padding: 2px 4px; border-radius: 3px; font-weight: 600; border-bottom: 2px solid #D4AF37;\">".toList

def markClose : List Char := "</mark>".toList

/-- Scanning core of `re.sub(r'\b(kw)\b', open + \1 + close, t, re.IGNORECASE)`:
at each position of the original text, on a word-boundary match of `kw` emit
the tagged matched slice and continue after it, otherwise copy one character.
The fuel is `t.length + 1 - i`, enough because every step advances `i`.
(The degenerate empty-keyword pattern never occurs: keywords are stripped
non-empty lines; an empty keyword is treated as matching nowhere here.) -/
def subWBGo (t kw : List Char) : Nat → Nat → List Char
  | _, 0 => []
  | i, fuel + 1 =>
    if i < t.length then
      if !kw.isEmpty && matchWBAt t kw i then
        markOpen ++ (t.drop i).take kw.length ++ markClose ++ subWBGo t kw (i + kw.length) fuel
      else
        (t.drop i).headD ' ' :: subWBGo t kw (i + 1) fuel
    else []

def subWB (kw t : List Char) : List Char :=
  subWBGo t kw 0 (t.length + 1)

/-- Stable insertion for descending length order. -/
def insertByLen (x : List Char) : List (List Char) → List (List Char)
  | [] => [x]
  | y :: ys => if y.length ≤ x.length then x :: y :: ys else y :: insertByLen x ys

/-- Python `sorted(keywords, key=len, reverse=True)`: stable, longest first. -/
def sortKwsDesc (l : List (List Char)) : List (List Char) :=
  l.foldr insertByLen []

/-- Embedding of `highlight_keywords` (send_email.py lines 96-119): escape the
text first, then for each keyword (longest first) wrap every word-boundary,
case-insensitive occurrence in the fixed mark tags. -/
def highlight_keywords (text : List Char) (keywords : List (List Char)) : List Char :=
  let t := escapeHtml text
  if keywords.isEmpty then t
  else (sortKwsDesc keywords).foldl (fun acc kw => subWB kw acc) t

-- ---------------------------------------------------------------------------
-- send_email.py: split_paragraphs (lines 71-73)
-- ---------------------------------------------------------------------------

/-- The final `\r?\n` of the separator regex, tried at position `p`. -/
def tailNL (s : List Char) (p : Nat) : Option Nat :=
  match s.drop p with
  | c :: d :: _ =>
    if c == '\r' && d == '\n' then some (p + 2)
    else if c == '\n' then some (p + 1)
    else none
  | [c] => if c == '\n' then some (p + 1) else none
  | [] => none

/-- Greedy backtracking of `\s*`: try the largest take `k` first, then smaller. -/
def findTail (s : List Char) (b : Nat) : Nat → Option Nat
  | 0 => tailNL s b
  | k + 1 =>
    match tailNL s (b + k + 1) with
    | some e => some e
    | none => findTail s b k

/-- Match of the separator regex `\r?\n\s*\r?\n` at position `i`, returning the
position after the match. -/
def sepAt (s : List Char) (i : Nat) : Option Nat :=
  let base? : Option Nat :=
    match s.drop i with
    | c :: rest =>
      if c == '\r' then
        match rest with
        | d :: _ => if d == '\n' then some (i + 2) else none
        | [] => none
      else if c == '\n' then some (i + 1)
      else none
    | [] => none
  match base? with
  | none => none
  | some b =>
    let w := ((s.drop b).takeWhile isPySpace).length
    findTail s b w

/-- Python slice `s[a:b]`. -/
def slice (s : List Char) (a b : Nat) : List Char :=
  (s.drop a).take (b - a)

/-- Leftmost-first scan of `re.split(r"\r?\n\s*\r?\n", s)`. -/
def splitGo (s : List Char) : Nat → Nat → Nat → List (List Char)
  | _, segStart, 0 => [slice s segStart s.length]
  | i, segStart, fuel + 1 =>
    if i < s.length then
      match sepAt s i with
      | some e => slice s segStart i :: splitGo s e e fuel
      | none => splitGo s (i + 1) segStart fuel
    else
      [slice s segStart s.length]

def splitText (s : List Char) : List (List Char) :=
  splitGo s 0 0 (s.length + 1)

/-- Embedding of `split_paragraphs` (send_email.py lines 71-73): split on
blank-line separators, strip each piece, keep the non-empty ones. -/
def split_paragraphs (text : List Char) : List (List Char) :=
  ((splitText text).map pstrip).filter (fun p => !p.isEmpty)

end HansMon

namespace HansMon

-- ---------------------------------------------------------------------------
-- send_email.py: extract_speaker (lines 76-93)
-- ---------------------------------------------------------------------------

def apos : Char := Char.ofNat 39

/-- Regex class `[A-Za-z\s\-\']` of the first speaker pattern. -/
def speakerCls1 (c : Char) : Bool :=
  c.isAlpha || isPySpace c || c == '-' || c == apos

/-- Regex class `[A-Z\s\-\']` of the second (all-caps) speaker pattern. -/
def speakerCls2 (c : Char) : Bool :=
  c.isUpper || isPySpace c || c == '-' || c == apos

/-- Terminator class `[\s:]` that ends the lazily captured group. -/
def term12 (c : Char) : Bool :=
  isPySpace c || c == ':'

/-- Lazy capture `[cls]+?` followed by a required `[term]` character: take the
minimal non-empty class run whose next character is a terminator.  This is the
deterministic behaviour of the lazy quantifier in the speaker regexes. -/
def lazyCapture (cls term : Char → Bool) : List Char → Option (List Char)
  | [] => none
  | c :: rest =>
    if cls c then
      match rest with
      | [] => none
      | d :: _ =>
        if term d then some [c]
        else
          match lazyCapture cls term rest with
          | some acc => some (c :: acc)
          | none => none
    else none

/-- The honorifics of the first speaker pattern, in regex alternation order. -/
def honorifics : List (List Char) :=
  [r"Mr".toList, r"Mrs".toList, r"Ms".toList, r"Miss".toList,
   r"Dr".toList, r"Prof".toList, r"The".toList]

/-- One alternative of pattern 1,
`^((?:Mr|Mrs|Ms|Miss|Dr|Prof|The)\s+[A-Z][A-Za-z\s\-\']+?)[\s:]+`: the literal
honorific (case-sensitive), at least one whitespace, an uppercase letter, then
the lazy capture ended by whitespace or a colon. -/
def tryHon (s h : List Char) : Option (List Char) :=
  if h.isPrefixOf s then
    let rest := s.drop h.length
    let ws := rest.takeWhile isPySpace
    if ws.isEmpty then none
    else
      match rest.drop ws.length with
      | c :: rest3 =>
        if c.isUpper then
          match lazyCapture speakerCls1 term12 rest3 with
          | some acc => some (h ++ ws ++ (c :: acc))
          | none => none
        else none
      | [] => none
  else none

def tryPattern1 (s : List Char) : Option (List Char) :=
  honorifics.findSome? (tryHon s)

/-- Pattern 2, `^([A-Z][A-Z\s\-\']+?)[\s:]+`: an all-caps (lazy) leading name. -/
def tryPattern2 (s : List Char) : Option (List Char) :=
  match s with
  | c :: rest =>
    if c.isUpper then
      match lazyCapture speakerCls2 term12 rest with
      | some acc => some (c :: acc)
      | none => none
    else none
  | [] => none

def roles : List (List Char) :=
  [r"PRESIDENT".toList, r"SPEAKER".toList, r"CHAIR".toList, r"DEPUTY".toList]

/-- One alternative of pattern 3, `^((?:PRESIDENT|SPEAKER|CHAIR|DEPUTY))[\s:]+`. -/
def tryRole (s w : List Char) : Option (List Char) :=
  if w.isPrefixOf s then
    match s.drop w.length with
    | d :: _ => if term12 d then some w else none
    | [] => none
  else none

def tryPattern3 (s : List Char) : Option (List Char) :=
  roles.findSome? (tryRole s)

/-- Python `str.title()` (ASCII): a letter is uppercased after a non-letter and
lowercased after a letter. -/
def pTitleGo : List Char → Bool → List Char
  | [], _ => []
  | c :: r, prevAlpha =>
    (if c.isAlpha then (if prevAlpha then c.toLower else c.toUpper) else c) :: pTitleGo r c.isAlpha

def pTitle (l : List Char) : List Char :=
  pTitleGo l false

def unknownSpeaker : List Char := "Unknown Speaker".toList

/-- Embedding of `extract_speaker` (send_email.py lines 76-93): try the three
patterns in order on the start of the paragraph; on a match return
`group(1).strip().title()`, otherwise the `"Unknown Speaker"` sentinel. -/
def extract_speaker (p : List Char) : List Char :=
  match tryPattern1 p with
  | some g => pTitle (pstrip g)
  | none =>
    match tryPattern2 p with
    | some g => pTitle (pstrip g)
    | none =>
      match tryPattern3 p with
      | some g => pTitle (pstrip g)
      | none => unknownSpeaker

-- ---------------------------------------------------------------------------
-- send_email.py: paragraph_digest_html core (lines 122-189)
-- ---------------------------------------------------------------------------

/-- One paragraph of an emitted context window: the `{'speaker','text','is_match'}`
dict built in send_email.py lines 144-150. -/
structure ParaEntry where
  speaker : List Char
  text : List Char
  is_match : Bool
deriving DecidableEq

/-- The context window for a match at paragraph `i` (send_email.py lines
138-150): `start = max(0, i - radius)`, `end = min(len(paras), i + radius + 1)`,
one entry per paragraph index in `[start, end)`. -/
def windowFor (paras kws : List (List Char)) (radius i : Nat) : List ParaEntry :=
  let start := i - radius
  let stop := min paras.length (i + radius + 1)
  (List.range' start (stop - start)).map fun j =>
    ⟨extract_speaker (paras.getD j []), highlight_keywords (paras.getD j []) kws, j == i⟩

/-- The `matches` list (send_email.py lines 135-152): one window per paragraph
on which the combined keyword pattern fires. -/
def allMatches (text : List Char) (kws : List (List Char)) (radius : Nat) :
    List (List ParaEntry) :=
  let paras := split_paragraphs text
  (List.range paras.length).filterMap fun i =>
    if patternSearch (paras.getD i []) kws then some (windowFor paras kws radius i) else none

/-- Dedup key `tuple(p['text'] for p in match)` (send_email.py line 158). -/
def windowKey (m : List ParaEntry) : List (List Char) :=
  m.map (·.text)

/-- The dedup loop of send_email.py lines 154-161: keep a window only if its
key was not seen before. -/
def dedupKeys : List (List ParaEntry) → List (List (List Char)) → List (List ParaEntry)
  | [], _ => []
  | m :: ms, seen =>
    if windowKey m ∈ seen then dedupKeys ms seen
    else m :: dedupKeys ms (windowKey m :: seen)

def dedupByKey (ms : List (List ParaEntry)) : List (List ParaEntry) :=
  dedupKeys ms []

def natStr (n : Nat) : List Char :=
  (Nat.repr n).toList

def noticeA : List Char :=
  "\n            <div style=\"background-color: #FFF3CD; border: 1px solid #D4AF37; \n                        border-radius: 5px; padding: 15px; margin-bottom: 20px;\">\n                <p style=\"margin: 0; color: #2C3E50;\">\n                    <strong>Note:</strong> Found ".toList

def noticeB : List Char :=
  " total matches. \n                    Showing first ".toList

def noticeC : List Char :=
  " to keep email size manageable.\n                    Full transcript attached for complete review.\n                </p>\n            </div>\n        ".toList

/-- The overflow notice block appended when matches were limited (send_email.py
lines 179-189), with the brand constants substituted. -/
def noticeHtml (total displayed : Nat) : List Char :=
  noticeA ++ natStr total ++ noticeB ++ natStr displayed ++ noticeC

/-- The data computed by `paragraph_digest_html` (send_email.py lines 122-189)
other than the per-match presentation HTML: the deduplicated (and possibly
truncated) windows, the returned `total_matches` and `displayed_matches`
counts, and the overflow notice when matches were limited. -/
structure DigestResult where
  unique_matches : List (List ParaEntry)
  total : Nat
  displayed : Nat
  notice : Option (List Char)

/-- Core of `paragraph_digest_html`: empty keyword set and no-match cases
return zero counts (lines 129-130 and 172-173); otherwise dedup, truncate to
`max_matches` and report `(total_matches, displayed_matches)`. -/
def digestCore (text : List Char) (kws : List (List Char)) (radius max_matches : Nat) :
    DigestResult :=
  if kws.isEmpty then ⟨[], 0, 0, none⟩
  else
    let u := dedupByKey (allMatches text kws radius)
    let total := u.length
    let um := if max_matches < total then u.take max_matches else u
    let displayed := if max_matches < total then max_matches else total
    if um.isEmpty then ⟨[], 0, 0, none⟩
    else ⟨um, total, displayed, if max_matches < total then some (noticeHtml total displayed) else none⟩

def subjA : List Char := "Hansard Alert: ".toList

def subjB1 : List Char := " Matches Found (showing ".toList

def subjB2 : List Char := ") - ".toList

def subjC : List Char := " Keyword Matches - ".toList

/-- The subject line built in `main` (send_email.py lines 384-388): the true
total and, when matches were limited, the displayed count as well. -/
def subjectFor (total displayed : Nat) (name : List Char) : List Char :=
  if displayed < total then
    subjA ++ natStr total ++ subjB1 ++ natStr displayed ++ subjB2 ++ name
  else
    subjA ++ natStr total ++ subjC ++ name

-- ---------------------------------------------------------------------------
-- scan_new_transcripts.py: extract_quotes (lines 85-93)
-- ---------------------------------------------------------------------------

/-- Case-insensitive literal occurrence of `kw` at position `i` of `t`
(`re.finditer(re.escape(kw), text, flags=re.I)` has no word boundaries). -/
def ciAt (t kw : List Char) (i : Nat) : Bool :=
  decide (i + kw.length ≤ t.length) && lowerEqPrefix kw (t.drop i)

/-- The non-overlapping leftmost scan of `re.finditer`: on a match at `i`
continue at `i + kw.length`, otherwise advance one position.  (An empty
keyword is treated as matching nowhere; keywords are non-empty stripped
lines.) -/
def findCIGo (t kw : List Char) : Nat → Nat → List Nat
  | _, 0 => []
  | i, fuel + 1 =>
    if !kw.isEmpty && ciAt t kw i then i :: findCIGo t kw (i + kw.length) fuel
    else if i < t.length then findCIGo t kw (i + 1) fuel
    else []

def findCI (t kw : List Char) : List Nat :=
  findCIGo t kw 0 (t.length + 1)

/-- Embedding of `extract_quotes(text, keywords, context_chars=160)`
(scan_new_transcripts.py lines 85-93): for each keyword, every
case-insensitive substring occurrence yields `(kw, snippet)` where the snippet
is `text[max(0, start-160) : min(len, end+160)]` with `\r` removed and
stripped. -/
def extract_quotes (text : List Char) (keywords : List (List Char)) :
    List (List Char × List Char) :=
  (keywords.map fun kw =>
    (findCI text kw).map fun s =>
      let a := s - 160
      let b := min text.length (s + kw.length + 160)
      (kw, pstrip ((slice text a b).filter (fun c => c != '\r')))).flatten

end HansMon

namespace HansMon

-- ---------------------------------------------------------------------------
-- download_transcript.py: doc-id extraction (lines 99-103)
-- ---------------------------------------------------------------------------

def litDocSlash : List Char := "/doc/".toList

/-- Scan for the leftmost `/doc/` followed by at least one character outside
`/?#`; the capture is the maximal such run (regex `/doc/([^/?#]+)` searched). -/
def extractDocIdGo : List Char → Option (List Char)
  | [] => none
  | s@(_ :: rest) =>
    if litDocSlash.isPrefixOf s then
      let cap := (s.drop 5).takeWhile (fun c => !(c == '/' || c == '?' || c == '#'))
      if cap.isEmpty then extractDocIdGo rest else some cap
    else extractDocIdGo rest

/-- Embedding of `extract_doc_id` (download_transcript.py lines 99-103). -/
def extract_doc_id (href : List Char) : Option (List Char) :=
  extractDocIdGo href

-- ---------------------------------------------------------------------------
-- download_transcript.py: the run loop (lines 221-303)
-- ---------------------------------------------------------------------------

/-- In-memory state of a run: the seen index (docid, relative path), the seen
id set, the new saves, plus a trace of every docid for which a fetch
(`download_text_for_doc`, i.e. opening and downloading the document) was
attempted. -/
structure RunState where
  seen_index : List (List Char × List Char)
  seen_ids : List (List Char)
  new_saves : List (List Char)
  fetched : List (List Char)

/-- The external world of a run: the doc links `(href, title)` shown on each
results page, the pagination probes, the fetch capability (docid and title to
an optional saved path, covering all of `download_text_for_doc`), and whether
the search box and the first results appeared. -/
structure Env where
  pages : Nat → List (List Char × List Char)
  hasNext : Nat → Bool
  clickNextOk : Nat → Bool
  nextLoadOk : Nat → Bool
  fetch : List Char → List Char → Option (List Char)
  searchOk : Bool
  resultsOk : Bool

/-- `docid = extract_doc_id(href) or href` (download_transcript.py line 264). -/
def candidateId (href : List Char) : List Char :=
  (extract_doc_id href).getD href

/-- The body of the candidate loop (download_transcript.py lines 263-281):
skip without fetching when the docid is already seen, otherwise attempt the
fetch (recorded in the trace) and on success record index entry, seen id and
new save. -/
def processCandidate (f : List Char → List Char → Option (List Char))
    (st : RunState) (cand : List Char × List Char) : RunState :=
  let docid := candidateId cand.1
  if docid ∈ st.seen_ids then st
  else
    match f docid cand.2 with
    | some path =>
      RunState.mk (st.seen_index ++ [(docid, path)]) (st.seen_ids ++ [docid])
        (st.new_saves ++ [path]) (st.fetched ++ [docid])
    | none =>
      RunState.mk st.seen_index st.seen_ids st.new_saves (st.fetched ++ [docid])

/-- The pagination loop (download_transcript.py lines 257-298): process the
links of the current page, then stop at the `MAX_PAGES` ceiling, a missing or
unclickable next control, or a next page that fails to load; otherwise advance.
Fuel `maxPages + 1` suffices since the ceiling stops the loop. -/
def traverseGo (env : Env) (maxPages : Nat) : Nat → Nat → RunState → RunState
  | _, 0, st => st
  | k, fuel + 1, st =>
    let st1 := (env.pages k).foldl (processCandidate env.fetch) st
    if maxPages ≤ k then st1
    else if !env.hasNext k then st1
    else if !env.clickNextOk k then st1
    else if !env.nextLoadOk k then st1
    else traverseGo env maxPages (k + 1) fuel st1

def traverse (env : Env) (maxPages : Nat) (st : RunState) : RunState :=
  traverseGo env maxPages 1 (maxPages + 1) st

-- ---------------------------------------------------------------------------
-- download_transcript.py: save_seen_index (lines 82-85) and run (221-303)
-- ---------------------------------------------------------------------------

/-- The files involved in persisting the index: the index file and the
temporary file written before the rename. -/
structure FS where
  indexFile : Option (List (List Char × List Char))
  tmpFile : Option (List (List Char × List Char))

/-- First step of `save_seen_index`: write the temp file only. -/
def writeTmp (fs : FS) (idx : List (List Char × List Char)) : FS :=
  FS.mk fs.indexFile (some idx)

/-- Second step: `tmp.replace(INDEX_PATH)` renames the temp file over the
index file. -/
def renameTmp (fs : FS) : FS :=
  match fs.tmpFile with
  | some v => FS.mk (some v) none
  | none => fs

/-- Embedding of `save_seen_index` (download_transcript.py lines 82-85):
write-to-temp then rename-over. -/
def save_seen_index (fs : FS) (idx : List (List Char × List Char)) : FS :=
  renameTmp (writeTmp fs idx)

/-- Outcome of a run: the exit code, the final in-memory state, the list of
`save_seen_index` calls made (with their argument), and the file state. -/
structure RunResult where
  exitCode : Nat
  final : RunState
  persists : List (List (List Char × List Char))
  fs : FS

/-- Embedding of `run` (download_transcript.py lines 221-303): load the index
into memory, return early (without persisting) if the search box or the first
results never appear, otherwise traverse all pages and persist the in-memory
index exactly once afterwards. -/
def run (env : Env) (maxPages : Nat) (idx0 : List (List Char × List Char))
    (fs0 : FS) : RunResult :=
  let st0 := RunState.mk idx0 (idx0.map Prod.fst) [] []
  if !env.searchOk then RunResult.mk 2 st0 [] fs0
  else if !env.resultsOk then RunResult.mk 0 st0 [] fs0
  else
    let st := traverse env maxPages st0
    RunResult.mk 0 st [st.seen_index] (save_seen_index fs0 st.seen_index)

end HansMon

namespace HansMon

theorem processCandidate_inv (f : List Char → List Char → Option (List Char))
    (st : RunState) (cand : List Char × List Char) (d : List Char)
    (h1 : d ∈ st.seen_ids) (h2 : d ∉ st.fetched) :
    d ∈ (processCandidate f st cand).seen_ids ∧ d ∉ (processCandidate f st cand).fetched := by
  unfold processCandidate
  by_cases hm : candidateId cand.1 ∈ st.seen_ids
  · simp only [hm, if_pos]
    exact ⟨h1, h2⟩
  · have hne : d ≠ candidateId cand.1 := fun he => hm (he ▸ h1)
    simp only [hm, if_neg, not_false_iff]
    cases hf : f (candidateId cand.1) cand.2 with
    | none =>
      refine ⟨h1, ?_⟩
      simp [List.mem_append, h2, hne]
    | some path =>
      refine ⟨?_, ?_⟩
      · simp [List.mem_append, h1]
      · simp [List.mem_append, h2, hne]

theorem foldl_pc_inv (f : List Char → List Char → Option (List Char))
    (cands : List (List Char × List Char)) :
    ∀ st d, d ∈ st.seen_ids → d ∉ st.fetched →
      d ∈ (cands.foldl (processCandidate f) st).seen_ids ∧
      d ∉ (cands.foldl (processCandidate f) st).fetched := by
  induction cands with
  | nil => intro st d h1 h2; exact ⟨h1, h2⟩
  | cons c cs ih =>
    intro st d h1 h2
    have h := processCandidate_inv f st c d h1 h2
    exact ih _ d h.1 h.2

theorem traverseGo_inv (env : Env) (maxPages : Nat) :
    ∀ fuel k st d, d ∈ st.seen_ids → d ∉ st.fetched →
      d ∈ (traverseGo env maxPages k fuel st).seen_ids ∧
      d ∉ (traverseGo env maxPages k fuel st).fetched := by
  intro fuel
  induction fuel with
  | zero => intro k st d h1 h2; exact ⟨h1, h2⟩
  | succ n ih =>
    intro k st d h1 h2
    have h := foldl_pc_inv env.fetch (env.pages k) st d h1 h2
    simp only [traverseGo]
    split_ifs
    · exact h
    · exact h
    · exact h
    · exact h
    · exact ih (k + 1) _ d h.1 h.2

end HansMon

namespace HansMon

theorem processCandidate_ext (f : List Char → List Char → Option (List Char))
    (st : RunState) (cand : List Char × List Char) :
    ∃ l, (processCandidate f st cand).seen_index = st.seen_index ++ l := by
  unfold processCandidate
  by_cases hm : candidateId cand.1 ∈ st.seen_ids
  · exact ⟨[], by simp [hm]⟩
  · cases hf : f (candidateId cand.1) cand.2 with
    | none => exact ⟨[], by simp [hm, hf]⟩
    | some path => exact ⟨[(candidateId cand.1, path)], by simp [hm, hf]⟩

theorem foldl_pc_ext (f : List Char → List Char → Option (List Char))
    (cands : List (List Char × List Char)) :
    ∀ st, ∃ l, (cands.foldl (processCandidate f) st).seen_index = st.seen_index ++ l := by
  induction cands with
  | nil => intro st; exact ⟨[], by simp⟩
  | cons c cs ih =>
    intro st
    obtain ⟨l1, h1⟩ := processCandidate_ext f st c
    obtain ⟨l2, h2⟩ := ih (processCandidate f st c)
    exact ⟨l1 ++ l2, by simp [h2, h1, List.append_assoc]⟩

theorem traverseGo_ext (env : Env) (maxPages : Nat) :
    ∀ fuel k st, ∃ l, (traverseGo env maxPages k fuel st).seen_index = st.seen_index ++ l := by
  intro fuel
  induction fuel with
  | zero => intro k st; exact ⟨[], by simp [traverseGo]⟩
  | succ n ih =>
    intro k st
    obtain ⟨l1, h1⟩ := foldl_pc_ext env.fetch (env.pages k) st
    simp only [traverseGo]
    split_ifs
    · exact ⟨l1, h1⟩
    · exact ⟨l1, h1⟩
    · exact ⟨l1, h1⟩
    · exact ⟨l1, h1⟩
    · obtain ⟨l2, h2⟩ := ih (k + 1) ((env.pages k).foldl (processCandidate env.fetch) st)
      exact ⟨l1 ++ l2, by simp [h2, h1, List.append_assoc]⟩

/-- C1: for every identifier already recorded in the Seen-Index at the start
of a run, the run never attempts a fetch for that identifier: the membership
check at download_transcript.py line 265 happens before the
`download_text_for_doc` call at line 270, so a seen candidate is skipped
without any fetch. -/
theorem C1_seen_id_never_fetched (env : Env) (maxPages : Nat)
    (idx0 : List (List Char × List Char)) (fs0 : FS) (d : List Char)
    (h : d ∈ idx0.map Prod.fst) :
    d ∉ (run env maxPages idx0 fs0).final.fetched := by
  unfold run
  by_cases hs : env.searchOk
  · by_cases hr : env.resultsOk
    · simp only [hs, hr, Bool.not_true, Bool.false_eq_true, if_false]
      exact (traverseGo_inv env maxPages (maxPages + 1) 1
        (RunState.mk idx0 (idx0.map Prod.fst) [] []) d h (List.not_mem_nil d)).2
    · simp only [Bool.not_eq_true'] at hr
      simp [hs, hr]
  · simp only [Bool.not_eq_true'] at hs
    simp [hs]

end HansMon

namespace HansMon

/-- C2: once traversal has started, the Seen-Index is persisted exactly once
per run, whatever way the page loop ends (all loop exits fall through to the
single `save_seen_index` call at download_transcript.py line 303); the
persisted value is the final in-memory index, which extends the initial one,
so every identifier recorded before termination is persisted; and persistence
writes a temp file first (leaving the index file untouched) and then renames
it over the index, so a crash between the steps leaves the previous index
intact. -/
theorem C2_persist_once_atomic (env : Env) (maxPages : Nat)
    (idx0 : List (List Char × List Char)) (fs0 fs1 : FS)
    (idx1 : List (List Char × List Char))
    (hs : env.searchOk = true) (hr : env.resultsOk = true) :
    (run env maxPages idx0 fs0).persists = [(run env maxPages idx0 fs0).final.seen_index]
    ∧ (∃ l, (run env maxPages idx0 fs0).final.seen_index = idx0 ++ l)
    ∧ (run env maxPages idx0 fs0).fs.indexFile =
        some ((run env maxPages idx0 fs0).final.seen_index)
    ∧ (run env maxPages idx0 fs0).fs.tmpFile = none
    ∧ (writeTmp fs1 idx1).indexFile = fs1.indexFile
    ∧ (save_seen_index fs1 idx1).indexFile = some idx1
    ∧ (save_seen_index fs1 idx1).tmpFile = none := by
  refine ⟨?_, ?_, ?_, ?_, rfl, rfl, rfl⟩
  · simp [run, hs, hr]
  · simp only [run, hs, hr, Bool.not_true, Bool.false_eq_true, if_false]
    exact traverseGo_ext env maxPages (maxPages + 1) 1 _
  · simp [run, hs, hr, save_seen_index, writeTmp, renameTmp]
  · simp [run, hs, hr, save_seen_index, writeTmp, renameTmp]

def envW1 : Env :=
  Env.mk (fun _ => [((r"x/doc/D1".toList), (r"T1".toList)), ((r"x/doc/D2".toList), (r"T2".toList))])
    (fun _ => false) (fun _ => true) (fun _ => true) (fun d _ => some d) true true

def idxW1 : List (List Char × List Char) := [((r"D1".toList), (r"p".toList))]

def fsW0 : FS := FS.mk none none

def dW1 : List Char := r"D1".toList

theorem C1_witness :
    dW1 ∈ idxW1.map Prod.fst ∧ dW1 ∉ (run envW1 50 idxW1 fsW0).final.fetched :=
  ⟨by decide, C1_seen_id_never_fetched envW1 50 idxW1 fsW0 dW1 (by decide)⟩

theorem C2_witness :
    (run envW1 3 idxW1 fsW0).persists = [(run envW1 3 idxW1 fsW0).final.seen_index]
    ∧ (∃ l, (run envW1 3 idxW1 fsW0).final.seen_index = idxW1 ++ l)
    ∧ (run envW1 3 idxW1 fsW0).fs.indexFile =
        some ((run envW1 3 idxW1 fsW0).final.seen_index)
    ∧ (run envW1 3 idxW1 fsW0).fs.tmpFile = none
    ∧ (writeTmp fsW0 idxW1).indexFile = fsW0.indexFile
    ∧ (save_seen_index fsW0 idxW1).indexFile = some idxW1
    ∧ (save_seen_index fsW0 idxW1).tmpFile = none :=
  C2_persist_once_atomic envW1 3 idxW1 fsW0 fsW0 idxW1 rfl rfl

end HansMon

namespace HansMon

def emDash : Char := '—'

/-- A House-of-Assembly chamber-name variant with separator `sep`. -/
def hoaVariant (sep : Char) : List Char :=
  (r"house".toList) ++ [sep] ++ (r"of".toList) ++ [sep] ++ (r"assembly".toList)

/-- A Legislative-Council chamber-name variant with separator `sep`. -/
def lcVariant (sep : Char) : List Char :=
  (r"legislative".toList) ++ [sep] ++ (r"council".toList)

def cexLCDash : List Char := "legislative—council".toList

/-- C3 counterexample: the text "legislative—council" is exactly the
Legislative-Council name with the em-dash substituted for its spaces, yet
`detect_chamber` classifies it as Other Hansard — the code only recognizes the
em-dash variant for House of Assembly (line 91), not for Legislative Council
(line 93), so the claim that any recognized chamber name with alternate dash
characters substituted classifies to that chamber is false. -/
theorem C3_counterexample :
    detect_chamber cexLCDash = chOther
    ∧ cexLCDash = lcVariant emDash
    ∧ chOther ≠ chCouncil :=
  ⟨by decide, by decide, by decide⟩

/-- C3 (amended): classification is a pure, deterministic function of the
ASCII-lowercased text; a text containing a House-of-Assembly variant with
space, underscore or em-dash separators classifies as House of Assembly
(checked first); otherwise a text containing a Legislative-Council variant
with space or underscore separators (only — no dash variant) classifies as
Legislative Council; a text containing none of these five variants yields
Other Hansard; and the result depends only on the lowercased text
(case-insensitivity). -/
theorem C3_classify_amended (t : List Char) :
    ((∃ sep ∈ [' ', '_', emDash], containsSub (lowerL t) (hoaVariant sep) = true) →
      detect_chamber t = chHouse)
    ∧ ((∀ sep ∈ [' ', '_', emDash], containsSub (lowerL t) (hoaVariant sep) = false) →
       (∃ sep ∈ [' ', '_'], containsSub (lowerL t) (lcVariant sep) = true) →
      detect_chamber t = chCouncil)
    ∧ ((∀ sep ∈ [' ', '_', emDash], containsSub (lowerL t) (hoaVariant sep) = false) →
       (∀ sep ∈ [' ', '_'], containsSub (lowerL t) (lcVariant sep) = false) →
      detect_chamber t = chOther)
    ∧ (∀ t2 : List Char, lowerL t = lowerL t2 → detect_chamber t = detect_chamber t2) := by
  have e1 : hoaVariant ' ' = litHoASpace := by decide
  have e2 : hoaVariant '_' = litHoAUnder := by decide
  have e3 : hoaVariant emDash = litHoADash := by decide
  have e4 : lcVariant ' ' = litLCSpace := by decide
  have e5 : lcVariant '_' = litLCUnder := by decide
  refine ⟨?_, ?_, ?_, ?_⟩
  · rintro ⟨sep, hsep, hc⟩
    simp only [List.mem_cons, List.mem_singleton, List.not_mem_nil, or_false] at hsep
    rcases hsep with h | h | h <;> subst h
    · rw [e1] at hc; simp [detect_chamber, hc]
    · rw [e2] at hc; simp [detect_chamber, hc]
    · rw [e3] at hc; simp [detect_chamber, hc]
  · intro hno hyes
    have n1 := hno ' ' (by simp)
    have n2 := hno '_' (by simp)
    have n3 := hno emDash (by simp)
    rw [e1] at n1; rw [e2] at n2; rw [e3] at n3
    obtain ⟨sep, hsep, hc⟩ := hyes
    simp only [List.mem_cons, List.mem_singleton, List.not_mem_nil, or_false] at hsep
    rcases hsep with h | h <;> subst h
    · rw [e4] at hc; simp [detect_chamber, hc, n1, n2, n3]
    · rw [e5] at hc; simp [detect_chamber, hc, n1, n2, n3]
  · intro hno hno2
    have n1 := hno ' ' (by simp)
    have n2 := hno '_' (by simp)
    have n3 := hno emDash (by simp)
    have n4 := hno2 ' ' (by simp)
    have n5 := hno2 '_' (by simp)
    rw [e1] at n1; rw [e2] at n2; rw [e3] at n3; rw [e4] at n4; rw [e5] at n5
    simp [detect_chamber, n1, n2, n3, n4, n5]
  · intro t2 he
    simp only [detect_chamber, he]

def wHAText : List Char := "see HOUSE_OF_ASSEMBLY today".toList

def wLCText : List Char := "the Legislative Council met".toList

def wOtherText : List Char := "assembly minutes".toList

theorem C3_witness :
    detect_chamber wHAText = chHouse
    ∧ detect_chamber wLCText = chCouncil
    ∧ detect_chamber wOtherText = chOther :=
  ⟨(C3_classify_amended wHAText).1 ⟨'_', by decide, by decide⟩,
   (C3_classify_amended wLCText).2.1 (by decide) ⟨' ', by decide, by decide⟩,
   (C3_classify_amended wOtherText).2.2.1 (by decide) (by decide)⟩

end HansMon

namespace HansMon

def kwHealth : List Char := "health".toList

def hcText : List Char := "Healthcare".toList

def hpText : List Char := "The Health portfolio".toList

/-- C4 counterexample: in `extract_quotes` (scan_new_transcripts.py lines
85-93, part of the digest engine the claim cites) the keyword "health" DOES
match inside the text "Healthcare": the scan uses a plain case-insensitive
literal with no word boundaries, so the claim that keyword matching in the
digest engine is whole-word is false for this function. -/
theorem C4_counterexample :
    extract_quotes hcText [kwHealth] = [(kwHealth, hcText)]
    ∧ extract_quotes hcText [kwHealth] ≠ [] :=
  ⟨by decide, by decide⟩

/-- C4 (amended): the paragraph digest of send_email.py matches whole-word and
case-insensitively ("Healthcare" does not fire for keyword "health", "The
Health portfolio" does), and every word-boundary match is in particular a
case-insensitive substring occurrence; but `extract_quotes` of
scan_new_transcripts.py matches case-insensitive substrings with no word
boundaries, so there "Healthcare" does match "health". -/
theorem C4_matching_amended :
    patternSearch hcText [kwHealth] = false
    ∧ patternSearch hpText [kwHealth] = true
    ∧ extract_quotes hcText [kwHealth] = [(kwHealth, hcText)]
    ∧ (∀ t kw i, matchWBAt t kw i = true → ciAt t kw i = true) := by
  refine ⟨by decide, by decide, by decide, ?_⟩
  intro t kw i h
  simp only [matchWBAt, Bool.and_eq_true] at h
  simp only [ciAt, Bool.and_eq_true]
  exact ⟨h.1.1.1, h.1.1.2⟩

theorem C4_witness :
    matchWBAt hpText kwHealth 4 = true ∧ ciAt hpText kwHealth 4 = true :=
  ⟨by decide, C4_matching_amended.2.2.2 hpText kwHealth 4 (by decide)⟩

theorem getD_cons_drop {α : Type} (l : List α) :
    ∀ (s : Nat) (d : α), s < l.length → l.drop s = l.getD s d :: l.drop (s + 1) := by
  induction l with
  | nil => intro s d h; simp at h
  | cons c rest ih =>
    intro s d h
    cases s with
    | zero => simp
    | succ m =>
      simp only [List.drop_succ_cons, List.getD_cons_succ]
      exact ih m d (by simpa using h)

theorem rangeMapGetD {α β : Type} (l : List α) (d : α) (f : α → β) :
    ∀ (n s : Nat), s + n ≤ l.length →
      (List.range' s n).map (fun j => f (l.getD j d)) = ((l.drop s).take n).map f := by
  intro n
  induction n with
  | zero => intro s h; simp
  | succ m ih =>
    intro s h
    have hs : s < l.length := by omega
    rw [List.range'_succ, getD_cons_drop l s d hs]
    simp only [List.map_cons, List.take_succ_cons]
    rw [ih (s + 1) (by omega)]

end HansMon

namespace HansMon

/-- C5: the emitted window for a match at paragraph `i` is exactly the
paragraph slice from `max(0, i - r)` to `min(len, i + r + 1)` (send_email.py
lines 138-150): radius 0 gives exactly the matching paragraph, the window
texts are the highlighted paragraphs of that clipped slice, its length is the
clipped size, a radius-1 match in the first paragraph of a document with at
least two paragraphs gives exactly 2 paragraphs, and every emitted match of
the digest is such a window at a matching paragraph index. -/
theorem C5_window_clipped (text : List Char) (kws : List (List Char)) (r i : Nat)
    (h : i < (split_paragraphs text).length) :
    (windowFor (split_paragraphs text) kws 0 i =
      [ParaEntry.mk (extract_speaker ((split_paragraphs text).getD i []))
        (highlight_keywords ((split_paragraphs text).getD i []) kws) true])
    ∧ ((windowFor (split_paragraphs text) kws r i).map ParaEntry.text =
        (((split_paragraphs text).drop (i - r)).take
          (min (split_paragraphs text).length (i + r + 1) - (i - r))).map
          (fun p => highlight_keywords p kws))
    ∧ (windowFor (split_paragraphs text) kws r i).length =
        min (split_paragraphs text).length (i + r + 1) - (i - r)
    ∧ (2 ≤ (split_paragraphs text).length →
        (windowFor (split_paragraphs text) kws 1 0).length = 2)
    ∧ (∀ m ∈ allMatches text kws r, ∃ j, j < (split_paragraphs text).length ∧
        patternSearch ((split_paragraphs text).getD j []) kws = true ∧
        m = windowFor (split_paragraphs text) kws r j) := by
  set paras := split_paragraphs text with hp
  have hlen : ∀ (rr ii : Nat), (windowFor paras kws rr ii).length =
      min paras.length (ii + rr + 1) - (ii - rr) := by
    intro rr ii
    simp [windowFor]
  refine ⟨?_, ?_, hlen r i, ?_, ?_⟩
  · have hmin : min paras.length (i + 0 + 1) = i + 1 := by omega
    simp [windowFor, hmin]
  · simp only [windowFor, List.map_map]
    have hb : (i - r) + (min paras.length (i + r + 1) - (i - r)) ≤ paras.length := by
      omega
    exact rangeMapGetD paras [] (fun p => highlight_keywords p kws) _ _ hb
  · intro h2
    rw [hlen 1 0]
    omega
  · intro m hm
    simp only [allMatches, ← hp, List.mem_filterMap, List.mem_range] at hm
    obtain ⟨j, hj, hf⟩ := hm
    rcases (ite_eq_iff.mp hf) with ⟨hc, he⟩ | ⟨hc, he⟩
    · exact ⟨j, hj, hc, (Option.some.inj he).symm⟩
    · exact absurd he (by simp)

def kwBudget : List Char := "budget".toList

def w5Text : List Char := "alpha budget\n\nbeta".toList

theorem C5_witness :
    0 < (split_paragraphs w5Text).length
    ∧ (windowFor (split_paragraphs w5Text) [kwBudget] 1 0).length = 2 :=
  ⟨by decide,
   (C5_window_clipped w5Text [kwBudget] 1 0 (by decide)).2.2.2.1 (by decide)⟩

end HansMon

namespace HansMon

def idBang : List Char := "1!".toList

def idDollar : List Char := "1$".toList

def t6Title : List Char := "Title".toList

/-- C6 counterexample: the identifiers "1!" and "1$" are distinct (and both
are legal docids, since `extract_doc_id` captures any characters outside
`/?#`), yet `slugify` strips `!` and `$`, so two documents with the same title
and these different identifiers get the same destination path — the claim
that identical titles with different identifiers never collide is false. -/
theorem C6_counterexample :
    final_path chHouse t6Title idBang = final_path chHouse t6Title idDollar
    ∧ idBang ≠ idDollar :=
  ⟨by decide, by decide⟩

/-- C6 (amended): the destination path is a deterministic sanitized function
of chamber, title and identifier with the identifier slug always included, and
two documents with identical titles but different identifiers collide only
when the 120-truncated sanitized slugs of the identifiers coincide: distinct
identifier slugs give distinct paths. -/
theorem C6_path_distinct (chamber title id1 id2 : List Char)
    (h : slugify id1 120 ≠ slugify id2 120) :
    final_path chamber title id1 ≠ final_path chamber title id2 := by
  intro he
  apply h
  unfold final_path final_name at he
  simp only [List.append_assoc] at he
  have h1 := List.append_cancel_left he
  have h2 := List.append_cancel_left h1
  have h3 := List.append_cancel_left h2
  have h4 := List.append_cancel_left h3
  have h5 := List.append_cancel_left h4
  have h6 := List.append_cancel_left h5
  exact List.append_cancel_right h6

def idA : List Char := r"A".toList

def idB : List Char := r"B".toList

theorem C6_witness :
    slugify idA 120 ≠ slugify idB 120
    ∧ final_path chOther t6Title idA ≠ final_path chOther t6Title idB :=
  ⟨by decide, C6_path_distinct chOther t6Title idA idB (by decide)⟩

end HansMon

namespace HansMon

def bhText : List Char := "budget and health".toList

def dupText : List Char := "budget\n\nbudget".toList

/-- C7 counterexample: in the single paragraph "budget and health" both
keywords "budget" and "health" fire, yet the digest emits exactly ONE excerpt
entry, not one per keyword: the match loop (send_email.py line 136) produces
one window per matching paragraph for the combined pattern, and the dedup key
(line 158) is the window text alone, with no keyword component. -/
theorem C7_counterexample :
    (digestCore bhText [kwBudget, kwHealth] 0 50).total = 1
    ∧ patternSearch bhText [kwBudget] = true
    ∧ patternSearch bhText [kwHealth] = true :=
  ⟨by decide, by decide, by decide⟩

theorem dedupKeys_sub :
    ∀ (ms : List (List ParaEntry)) (seen : List (List (List Char))),
      ∀ m ∈ dedupKeys ms seen, m ∈ ms := by
  intro ms
  induction ms with
  | nil => intro seen m hm; simp [dedupKeys] at hm
  | cons m0 rest ih =>
    intro seen m hm
    by_cases hk : windowKey m0 ∈ seen
    · simp only [dedupKeys, if_pos hk] at hm
      exact List.mem_cons_of_mem m0 (ih seen m hm)
    · simp only [dedupKeys, if_neg hk, List.mem_cons] at hm
      rcases hm with h | h
      · exact h ▸ List.mem_cons_self m0 rest
      · exact List.mem_cons_of_mem m0 (ih _ m h)

theorem dedupKeys_notSeen :
    ∀ (ms : List (List ParaEntry)) (seen : List (List (List Char))),
      ∀ m ∈ dedupKeys ms seen, windowKey m ∉ seen := by
  intro ms
  induction ms with
  | nil => intro seen m hm; simp [dedupKeys] at hm
  | cons m0 rest ih =>
    intro seen m hm
    by_cases hk : windowKey m0 ∈ seen
    · simp only [dedupKeys, if_pos hk] at hm
      exact ih seen m hm
    · simp only [dedupKeys, if_neg hk, List.mem_cons] at hm
      rcases hm with h | h
      · exact h ▸ hk
      · have := ih _ m h
        intro hc
        exact this (List.mem_cons_of_mem _ hc)

theorem dedupKeys_pairwise :
    ∀ (ms : List (List ParaEntry)) (seen : List (List (List Char))),
      List.Pairwise (fun a b => windowKey a ≠ windowKey b) (dedupKeys ms seen) := by
  intro ms
  induction ms with
  | nil => intro seen; simp [dedupKeys]
  | cons m0 rest ih =>
    intro seen
    by_cases hk : windowKey m0 ∈ seen
    · simpa only [dedupKeys, if_pos hk] using ih seen
    · simp only [dedupKeys, if_neg hk]
      refine List.Pairwise.cons ?_ (ih _)
      intro b hb he
      have := dedupKeys_notSeen rest (windowKey m0 :: seen) b hb
      exact this (he ▸ List.mem_cons_self _ _)

theorem dedupKeys_covers :
    ∀ (ms : List (List ParaEntry)) (seen : List (List (List Char))),
      ∀ m ∈ ms, windowKey m ∈ seen ∨
        ∃ m2 ∈ dedupKeys ms seen, windowKey m2 = windowKey m := by
  intro ms
  induction ms with
  | nil => intro seen m hm; simp at hm
  | cons m0 rest ih =>
    intro seen m hm
    rcases List.mem_cons.mp hm with h | h
    · subst h
      by_cases hk : windowKey m ∈ seen
      · exact Or.inl hk
      · exact Or.inr ⟨m, by simp [dedupKeys, if_neg hk], rfl⟩
    · by_cases hk : windowKey m0 ∈ seen
      · rcases ih seen m h with hl | ⟨m2, hm2, he⟩
        · exact Or.inl hl
        · exact Or.inr ⟨m2, by simpa [dedupKeys, if_pos hk] using hm2, he⟩
      · rcases ih (windowKey m0 :: seen) m h with hl | ⟨m2, hm2, he⟩
        · rcases List.mem_cons.mp hl with h0 | h0
          · exact Or.inr ⟨m0, by simp [dedupKeys, if_neg hk], h0.symm⟩
          · exact Or.inl h0
        · exact Or.inr ⟨m2, by simp [dedupKeys, if_neg hk, List.mem_cons, hm2], he⟩

/-- C7 (amended): digest excerpts are produced one per matching paragraph of
the combined keyword pattern — not one per keyword — and are deduplicated by
the exact window text alone: the deduplicated list is a subset of the raw
match list, no two of its windows share a window-text key (so identical
windows collapse to one even when reached via different keywords or
paragraphs), every raw match's window text is still represented, and two
identical matching paragraphs collapse to a single excerpt. -/
theorem C7_dedup_amended (text : List Char) (kws : List (List Char)) (r : Nat) :
    (∀ m ∈ dedupByKey (allMatches text kws r), m ∈ allMatches text kws r)
    ∧ List.Pairwise (fun a b => windowKey a ≠ windowKey b)
        (dedupByKey (allMatches text kws r))
    ∧ (∀ m ∈ allMatches text kws r,
        ∃ m2 ∈ dedupByKey (allMatches text kws r), windowKey m2 = windowKey m)
    ∧ (digestCore dupText [kwBudget] 0 50).total = 1 := by
  refine ⟨?_, ?_, ?_, by decide⟩
  · exact dedupKeys_sub (allMatches text kws r) []
  · exact dedupKeys_pairwise (allMatches text kws r) []
  · intro m hm
    rcases dedupKeys_covers (allMatches text kws r) [] m hm with hl | h
    · simp at hl
    · exact h

def w7 : List ParaEntry := windowFor (split_paragraphs bhText) [kwBudget, kwHealth] 0 0

theorem C7_witness :
    w7 ∈ allMatches bhText [kwBudget, kwHealth] 0
    ∧ ∃ m2 ∈ dedupByKey (allMatches bhText [kwBudget, kwHealth] 0),
        windowKey m2 = windowKey w7 :=
  ⟨by decide, (C7_dedup_amended bhText [kwBudget, kwHealth] 0).2.2.1 w7 (by decide)⟩

end HansMon

namespace HansMon

def mrSmithPara : List Char := "MR SMITH: The budget is strong.".toList

def applePara : List Char := "Apple is tasty.".toList

def mrOnly : List Char := "Mr".toList

/-- C8: the code evaluated at the claim's inputs. On "MR SMITH: The budget is
strong." the honorific pattern fails (it is case-sensitive, "Mr" is not a
prefix of "MR "), and the all-caps pattern's lazy quantifier stops at the
first space, so `extract_speaker` returns "Mr", dropping the surname — not
the "Mr Smith" the spec and the docstring's intent describe.  And on a
paragraph with no leading marker it returns the "Unknown Speaker" sentinel:
there is no fallback to a preceding paragraph anywhere in send_email.py,
although src/tests/test_extract_matches.py requires `send_email.extract_matches`
to inherit the preceding speaker line ("Mr John Doe -") — that function does
not exist in send_email.py, so the repository's own test fails. -/
theorem C8_speaker_eval :
    extract_speaker mrSmithPara = mrOnly
    ∧ extract_speaker applePara = unknownSpeaker :=
  ⟨by decide, by decide⟩

theorem isPrefixOf_self_append (x b : List Char) : x.isPrefixOf (x ++ b) = true := by
  induction x with
  | nil => simp [List.isPrefixOf]
  | cons c cs ih => simp [List.isPrefixOf, ih]

theorem containsSub_append_mid (a x b : List Char) : containsSub (a ++ x ++ b) x = true := by
  simp only [containsSub, List.any_eq_true, List.mem_range]
  refine ⟨a.length, ?_, ?_⟩
  · simp [List.length_append]
    omega
  · have hd : (a ++ x ++ b).drop a.length = x ++ b := by
      rw [List.append_assoc]
      exact List.drop_left a (x ++ b)
    rw [hd]
    exact isPrefixOf_self_append x b

/-- C9: when the unique matches exceed the configured maximum, the emitted
list is truncated to the maximum while the true total is reported alongside
the truncated displayed count: in the returned counts
`(total_matches, displayed_matches)` (send_email.py lines 163-170, 218), in
the overflow notice (lines 179-189, which contains both numbers), and in the
subject line built in `main` (line 386). -/
theorem filterMapNone {α β : Type} (l : List α) :
    (l.filterMap fun _ => (none : Option β)) = [] := by
  induction l with
  | nil => rfl
  | cons a l ih => simp [List.filterMap_cons, ih]

theorem allMatches_nil_kws (text : List Char) (r : Nat) : allMatches text [] r = [] := by
  simp [allMatches, patternSearch, filterMapNone]

theorem C9_overflow_reported (text : List Char) (kws : List (List Char))
    (r mx : Nat) (name : List Char) (hmx : 0 < mx)
    (hover : mx < (dedupByKey (allMatches text kws r)).length) :
    (digestCore text kws r mx).unique_matches = (dedupByKey (allMatches text kws r)).take mx
    ∧ (digestCore text kws r mx).total = (dedupByKey (allMatches text kws r)).length
    ∧ (digestCore text kws r mx).displayed = mx
    ∧ (digestCore text kws r mx).notice =
        some (noticeHtml (dedupByKey (allMatches text kws r)).length mx)
    ∧ containsSub (noticeHtml (dedupByKey (allMatches text kws r)).length mx)
        (natStr (dedupByKey (allMatches text kws r)).length) = true
    ∧ containsSub (noticeHtml (dedupByKey (allMatches text kws r)).length mx)
        (natStr mx) = true
    ∧ containsSub (subjectFor (dedupByKey (allMatches text kws r)).length mx name)
        (natStr (dedupByKey (allMatches text kws r)).length) = true
    ∧ containsSub (subjectFor (dedupByKey (allMatches text kws r)).length mx name)
        (natStr mx) = true := by
  set u := dedupByKey (allMatches text kws r) with hu
  have hkw : kws.isEmpty = false := by
    rcases hkw0 : kws.isEmpty with h | h
    · rfl
    · exfalso
      have hknil : kws = [] := List.isEmpty_iff.mp hkw0
      rw [hu, hknil, allMatches_nil_kws] at hover
      simp [dedupByKey, dedupKeys] at hover
  have htake : (u.take mx).isEmpty = false := by
    rcases ht : (u.take mx).isEmpty with h | h
    · rfl
    · exfalso
      have : u.take mx = [] := List.isEmpty_iff.mp ht
      rcases List.take_eq_nil_iff.mp this with h0 | h0
      · omega
      · rw [h0] at hover
        simp at hover
  have hd : digestCore text kws r mx =
      DigestResult.mk (u.take mx) u.length mx (some (noticeHtml u.length mx)) := by
    simp only [digestCore, hkw, Bool.false_eq_true, if_false, ← hu, if_pos hover, htake]
  have hnote1 : noticeHtml u.length mx =
      noticeA ++ natStr u.length ++ (noticeB ++ natStr mx ++ noticeC) := by
    simp [noticeHtml, List.append_assoc]
  have hnote2 : noticeHtml u.length mx =
      (noticeA ++ natStr u.length ++ noticeB) ++ natStr mx ++ noticeC := by
    simp [noticeHtml, List.append_assoc]
  have hsubj : subjectFor u.length mx name =
      subjA ++ natStr u.length ++ (subjB1 ++ natStr mx ++ subjB2 ++ name) := by
    simp only [subjectFor, if_pos hover]
    simp [List.append_assoc]
  have hsubj2 : subjectFor u.length mx name =
      (subjA ++ natStr u.length ++ subjB1) ++ natStr mx ++ (subjB2 ++ name) := by
    simp only [subjectFor, if_pos hover]
    simp [List.append_assoc]
  refine ⟨by rw [hd], by rw [hd], by rw [hd], by rw [hd], ?_, ?_, ?_, ?_⟩
  · rw [hnote1]; exact containsSub_append_mid noticeA (natStr u.length) _
  · rw [hnote2]; exact containsSub_append_mid _ (natStr mx) noticeC
  · rw [hsubj]; exact containsSub_append_mid subjA (natStr u.length) _
  · rw [hsubj2]; exact containsSub_append_mid _ (natStr mx) _

def w9Text : List Char := "budget\n\nhealth".toList

def name9 : List Char := "t.txt".toList

def u9 : List (List ParaEntry) := dedupByKey (allMatches w9Text [kwBudget, kwHealth] 0)

theorem C9_witness :
    (digestCore w9Text [kwBudget, kwHealth] 0 1).unique_matches = u9.take 1
    ∧ (digestCore w9Text [kwBudget, kwHealth] 0 1).total = u9.length
    ∧ (digestCore w9Text [kwBudget, kwHealth] 0 1).displayed = 1
    ∧ (digestCore w9Text [kwBudget, kwHealth] 0 1).notice =
        some (noticeHtml u9.length 1)
    ∧ containsSub (noticeHtml u9.length 1) (natStr u9.length) = true
    ∧ containsSub (noticeHtml u9.length 1) (natStr 1) = true
    ∧ containsSub (subjectFor u9.length 1 name9) (natStr u9.length) = true
    ∧ containsSub (subjectFor u9.length 1 name9) (natStr 1) = true :=
  C9_overflow_reported w9Text [kwBudget, kwHealth] 0 1 name9 (by decide) (by decide)

end HansMon

namespace HansMon

/-- Origin-annotated escape: document-derived characters are tagged `false`. -/
def escapeA (t : List Char) : List (Char × Bool) :=
  (t.map fun c => (escapeChar c).map fun x => (x, false)).flatten

def markOpenA : List (Char × Bool) := markOpen.map fun c => (c, true)

def markCloseA : List (Char × Bool) := markClose.map fun c => (c, true)

/-- Origin-annotated copy of `subWBGo`: the matching decisions look only at
the character components, kept characters keep their origin tags, and inserted
mark tags are tagged `true` (code-inserted). -/
def subWBGoA (t : List (Char × Bool)) (kw : List Char) : Nat → Nat → List (Char × Bool)
  | _, 0 => []
  | i, fuel + 1 =>
    if i < t.length then
      if !kw.isEmpty && matchWBAt (t.map Prod.fst) kw i then
        markOpenA ++ (t.drop i).take kw.length ++ markCloseA ++ subWBGoA t kw (i + kw.length) fuel
      else
        (t.drop i).headD (' ', false) :: subWBGoA t kw (i + 1) fuel
    else []

def subWBA (kw : List Char) (t : List (Char × Bool)) : List (Char × Bool) :=
  subWBGoA t kw 0 (t.length + 1)

/-- Origin-annotated copy of `highlight_keywords`. -/
def highlightAnn (text : List Char) (keywords : List (List Char)) : List (Char × Bool) :=
  let t := escapeA text
  if keywords.isEmpty then t
  else (sortKwsDesc keywords).foldl (fun acc kw => subWBA kw acc) t

theorem headD_fst (l : List (Char × Bool)) :
    (l.headD (' ', false)).1 = (l.map Prod.fst).headD ' ' := by
  cases l <;> simp

theorem mapFstPairTrue (l : List Char) : (l.map fun c => (c, true)).map Prod.fst = l := by
  rw [List.map_map, show (Prod.fst ∘ fun c : Char => (c, true)) = id from rfl, List.map_id]

theorem mapFstPairFalse (l : List Char) : (l.map fun x => (x, false)).map Prod.fst = l := by
  rw [List.map_map, show (Prod.fst ∘ fun x : Char => (x, false)) = id from rfl, List.map_id]

theorem markOpenA_fst : markOpenA.map Prod.fst = markOpen := by
  rw [markOpenA]
  exact mapFstPairTrue markOpen

theorem markCloseA_fst : markCloseA.map Prod.fst = markClose := by
  rw [markCloseA]
  exact mapFstPairTrue markClose

theorem subWBGoA_fst (t : List (Char × Bool)) (kw : List Char) :
    ∀ (fuel i : Nat),
      (subWBGoA t kw i fuel).map Prod.fst = subWBGo (t.map Prod.fst) kw i fuel := by
  intro fuel
  induction fuel with
  | zero => intro i; simp [subWBGoA, subWBGo]
  | succ n ih =>
    intro i
    simp only [subWBGoA, subWBGo, List.length_map]
    by_cases h1 : i < t.length
    · rw [if_pos h1, if_pos h1]
      by_cases h2 : (!kw.isEmpty && matchWBAt (t.map Prod.fst) kw i) = true
      · rw [if_pos h2, if_pos h2]
        simp only [List.map_append, markOpenA_fst, markCloseA_fst, ih, List.map_take,
          List.map_drop]
      · rw [if_neg h2, if_neg h2]
        simp only [List.map_cons, headD_fst, List.map_drop, ih]
    · rw [if_neg h1, if_neg h1]
      simp

theorem subWBA_fst (kw : List Char) (t : List (Char × Bool)) :
    (subWBA kw t).map Prod.fst = subWB kw (t.map Prod.fst) := by
  have h := subWBGoA_fst t kw (t.length + 1) 0
  simpa [subWBA, subWB, List.length_map] using h

theorem escapeA_fst (text : List Char) : (escapeA text).map Prod.fst = escapeHtml text := by
  simp only [escapeA, escapeHtml, List.map_flatten, List.map_map]
  have h : (List.map Prod.fst ∘ fun c => List.map (fun x => (x, false)) (escapeChar c)) =
      escapeChar := by
    funext c
    exact mapFstPairFalse (escapeChar c)
  rw [h]

theorem foldA_fst (kl : List (List Char)) :
    ∀ (t : List (Char × Bool)),
      (kl.foldl (fun acc kw => subWBA kw acc) t).map Prod.fst =
        kl.foldl (fun acc kw => subWB kw acc) (t.map Prod.fst) := by
  induction kl with
  | nil => intro t; simp
  | cons k ks ih =>
    intro t
    simp only [List.foldl_cons]
    rw [ih, subWBA_fst]

theorem escapeChar_safe (c x : Char) (hx : x ∈ escapeChar c) : x ≠ '<' ∧ x ≠ '>' := by
  unfold escapeChar at hx
  split_ifs at hx with h1 h2 h3 h4 h5
  · exact (by decide : ∀ y ∈ entAmp, y ≠ '<' ∧ y ≠ '>') x hx
  · exact (by decide : ∀ y ∈ entLt, y ≠ '<' ∧ y ≠ '>') x hx
  · exact (by decide : ∀ y ∈ entGt, y ≠ '<' ∧ y ≠ '>') x hx
  · exact (by decide : ∀ y ∈ entQuot, y ≠ '<' ∧ y ≠ '>') x hx
  · exact (by decide : ∀ y ∈ entApos, y ≠ '<' ∧ y ≠ '>') x hx
  · have hxc : x = c := by simpa using hx
    subst hxc
    constructor
    · intro he; rw [he] at h2; simp at h2
    · intro he; rw [he] at h3; simp at h3

theorem escapeA_safe (text : List Char) :
    ∀ p ∈ escapeA text, p.2 = false → p.1 ≠ '<' ∧ p.1 ≠ '>' := by
  intro p hp _
  simp only [escapeA, List.mem_flatten, List.mem_map] at hp
  obtain ⟨l, ⟨c, hc, hl⟩, hpl⟩ := hp
  subst hl
  obtain ⟨x, hx, hxp⟩ := List.mem_map.mp hpl
  subst hxp
  exact escapeChar_safe c x hx

theorem memHeadD (l : List (Char × Bool)) (d : Char × Bool) (h : l ≠ []) :
    l.headD d ∈ l := by
  cases l with
  | nil => exact absurd rfl h
  | cons a as => simp

theorem taggedSafe (l : List Char) :
    ∀ p ∈ l.map (fun c => (c, true)), p.2 = false → p.1 ≠ '<' ∧ p.1 ≠ '>' := by
  intro p hp h
  obtain ⟨c, _, hcp⟩ := List.mem_map.mp hp
  rw [← hcp] at h
  simp at h

theorem subWBGoA_safe (t : List (Char × Bool)) (kw : List Char)
    (ht : ∀ p ∈ t, p.2 = false → p.1 ≠ '<' ∧ p.1 ≠ '>') :
    ∀ (fuel i : Nat), ∀ p ∈ subWBGoA t kw i fuel, p.2 = false → p.1 ≠ '<' ∧ p.1 ≠ '>' := by
  intro fuel
  induction fuel with
  | zero => intro i p hp; simp [subWBGoA] at hp
  | succ n ih =>
    intro i p hp
    simp only [subWBGoA] at hp
    by_cases h1 : i < t.length
    · rw [if_pos h1] at hp
      by_cases h2 : (!kw.isEmpty && matchWBAt (t.map Prod.fst) kw i) = true
      · rw [if_pos h2] at hp
        simp only [List.mem_append] at hp
        rcases hp with ((h | h) | h) | h
        · exact taggedSafe markOpen p h
        · exact ht p (List.mem_of_mem_drop (List.mem_of_mem_take h))
        · exact taggedSafe markClose p h
        · exact ih (i + kw.length) p h
      · rw [if_neg h2] at hp
        rcases List.mem_cons.mp hp with he | h
        · have hne : t.drop i ≠ [] := by
            apply List.ne_nil_of_length_pos
            simp only [List.length_drop]
            omega
          exact he ▸ ht _ (List.mem_of_mem_drop (memHeadD _ _ hne))
        · exact ih (i + 1) p h
    · rw [if_neg h1] at hp
      simp at hp

theorem foldA_safe (kl : List (List Char)) :
    ∀ t, (∀ p ∈ t, p.2 = false → p.1 ≠ '<' ∧ p.1 ≠ '>') →
      ∀ p ∈ kl.foldl (fun acc kw => subWBA kw acc) t, p.2 = false → p.1 ≠ '<' ∧ p.1 ≠ '>' := by
  induction kl with
  | nil => intro t ht; simpa using ht
  | cons k ks ih =>
    intro t ht
    simp only [List.foldl_cons]
    exact ih _ (subWBGoA_safe t k ht (t.length + 1) 0)

def ampText : List Char := "A&B".toList

def kwAmp : List Char := "amp".toList

/-- C10 counterexample: on text "A&B" with keyword "amp", the highlighter
escapes '&' to "&amp;" but then the keyword matches inside the entity, so the
output splits it with mark tags: the document's '&' no longer appears as the
escaped literal "&amp;" anywhere in the emitted HTML, refuting the claim that
'&' always appears as an escaped literal. -/
theorem C10_counterexample :
    containsSub (highlight_keywords ampText [kwAmp]) entAmp = false
    ∧ ampText.contains '&' = true
    ∧ highlight_keywords ampText [kwAmp] =
        (r"A&".toList) ++ markOpen ++ kwAmp ++ markClose ++ (r";B".toList) :=
  ⟨by decide, by decide, by decide⟩

/-- C10 (amended): `highlight_keywords` escapes the document text before any
mark insertion, and in the origin-annotated computation (which erases to the
real one) every document-derived character of the output differs from '<' and
'>' — raw angle brackets come only from the inserted fixed mark tags, so
document content can never inject raw HTML markup.  (Document '&' is escaped
to "&amp;", but a keyword matching inside an entity, e.g. "amp", can split
the entity with mark tags, so '&' need not survive as an intact escaped
literal.) -/
theorem C10_escape_before_marks (text : List Char) (kws : List (List Char)) :
    (highlightAnn text kws).map Prod.fst = highlight_keywords text kws
    ∧ (∀ p ∈ highlightAnn text kws, p.2 = false → p.1 ≠ '<' ∧ p.1 ≠ '>') := by
  constructor
  · simp only [highlightAnn, highlight_keywords]
    by_cases hk : kws.isEmpty
    · rw [if_pos hk, if_pos hk]
      exact escapeA_fst text
    · rw [if_neg hk, if_neg hk]
      rw [foldA_fst, escapeA_fst]
  · simp only [highlightAnn]
    by_cases hk : kws.isEmpty
    · rw [if_pos hk]
      exact escapeA_safe text
    · rw [if_neg hk]
      exact foldA_safe _ _ (escapeA_safe text)

theorem C10_witness :
    (highlightAnn ampText [kwAmp]).map Prod.fst = highlight_keywords ampText [kwAmp]
    ∧ ('A', false) ∈ highlightAnn ampText [kwAmp]
    ∧ ('A' ≠ '<' ∧ 'A' ≠ '>') :=
  ⟨(C10_escape_before_marks ampText [kwAmp]).1, by decide,
   (C10_escape_before_marks ampText [kwAmp]).2 ('A', false) (by decide) rfl⟩

end HansMon
